import Mathlib

/-!
Verification of the document ingestion and extraction pipeline of the
stage-RAG repository (`src/ocr_system/`): the conflict-resolving output
naming of `main_ocr.py` (`OCRSystem.generate_output_filename`,
`OCRSystem._check_naming_conflict`, `OCRSystem.process_single_file`),
the encoding-fallback text reader and legacy-doc fallback chain of
`document_processor.py`, and the OCR post-processing of
`ocr_processor.py`.

Python strings are modelled as Lean `String` (a sequence of Unicode code
points, matching Python's `str`); files and the output directory are
modelled as association lists from file name to content; byte streams as
`List Nat`; external calls (Tesseract, pdf2image, antiword) as oracle
parameters, with `none`/a flag standing for a raised exception.
-/

namespace OcrSystem

/-! ## Python string primitives -/

/-- The set of characters stripped by Python's `str.strip()`
(`str.isspace` characters). -/
def pyIsSpace (c : Char) : Bool :=
  let n := c.toNat
  decide (9 ≤ n ∧ n ≤ 13) || decide (28 ≤ n ∧ n ≤ 32) ||
  decide (n = 0x85) || decide (n = 0xA0) || decide (n = 0x1680) ||
  decide (0x2000 ≤ n ∧ n ≤ 0x200A) || decide (n = 0x2028) || decide (n = 0x2029) ||
  decide (n = 0x202F) || decide (n = 0x205F) || decide (n = 0x3000)

/-- Drop leading whitespace, then trailing whitespace: Python `str.strip()`
on the underlying character list. -/
def stripData (l : List Char) : List Char :=
  ((l.dropWhile pyIsSpace).reverse.dropWhile pyIsSpace).reverse

/-- Python `str.strip()`. -/
def pyStrip (s : String) : String := ⟨stripData s.data⟩

/-- Python `str.split('\n')` core: accumulates the current piece in
reverse. -/
def splitLinesCore : List Char → List Char → List (List Char)
  | [], acc => [acc.reverse]
  | c :: rest, acc =>
    if c = '\n' then acc.reverse :: splitLinesCore rest []
    else splitLinesCore rest (c :: acc)

/-- Python `str.split('\n')` on a character list. -/
def splitLinesData (l : List Char) : List (List Char) := splitLinesCore l []

/-- Python `str.split('\n')`. -/
def splitLines (s : String) : List String := (splitLinesData s.data).map (⟨·⟩)

/-- Joining with newlines on character lists (used to model both the
f-string concatenation of lines and a join on the newline separator). -/
def joinLinesData : List (List Char) → List Char
  | [] => []
  | [l] => l
  | l :: l2 :: rest => l ++ '\n' :: joinLinesData (l2 :: rest)

/-- First `n` characters of a string: Python `file.read(n)` yields at most
`n` characters of the decoded stream. -/
def strTake (s : String) (n : Nat) : String := ⟨s.data.take n⟩

/-- Characters after position `n`: Python `line.split(sep, 1)[1]` once the
position of the first separator is known. -/
def strDrop (s : String) (n : Nat) : String := ⟨s.data.drop n⟩

/-- Python `str.startswith`. -/
def strStarts (s pre : String) : Bool := pre.data.isPrefixOf s.data

/-- Python `str.lower()`, modelled on the ASCII range (the only range the
code applies it to: file-name extensions). -/
def asciiLower (s : String) : String :=
  ⟨s.data.map (fun c => if 65 ≤ c.toNat ∧ c.toNat ≤ 90 then Char.ofNat (c.toNat + 32) else c)⟩

/-- Python `str.upper()`, modelled on the ASCII range (applied only to the
lower-cased extension). -/
def asciiUpper (s : String) : String :=
  ⟨s.data.map (fun c => if 97 ≤ c.toNat ∧ c.toNat ≤ 122 then Char.ofNat (c.toNat - 32) else c)⟩

/-! ## Decimal rendering of integers

Python interpolates integers into f-strings (the counter suffix of an
alternative name, the Text Length header field) using their decimal
representation, modelled here by a fuel-based structural recursion (fuel
`n + 1` always suffices since the argument shrinks by a factor of ten per
step). -/

def digitChar (n : Nat) : Char :=
  match n with
  | 0 => '0' | 1 => '1' | 2 => '2' | 3 => '3' | 4 => '4'
  | 5 => '5' | 6 => '6' | 7 => '7' | 8 => '8' | 9 => '9'
  | _ => '*'

def decDigitsCore : Nat → Nat → List Char
  | 0, _ => []
  | fuel + 1, n =>
    if n < 10 then [digitChar n]
    else decDigitsCore fuel (n / 10) ++ [digitChar (n % 10)]

/-- Decimal representation of a natural number, as interpolated by a
Python f-string. -/
def decStr (n : Nat) : String := ⟨decDigitsCore (n + 1) n⟩

/-- Inverse of `digitChar` on decimal digits (used only to prove that the
decimal rendering is injective). -/
def digitVal (c : Char) : Nat :=
  if c = '1' then 1 else if c = '2' then 2 else if c = '3' then 3
  else if c = '4' then 4 else if c = '5' then 5 else if c = '6' then 6
  else if c = '7' then 7 else if c = '8' then 8 else if c = '9' then 9 else 0

/-! ## File-name sanitization (`main_ocr.py` line 39)

`re.sub(r'[^\w\-_\.]', '_', base_name)`: every character that is not a
Python word character (`\w`, Unicode-aware since the pattern is a `str`
pattern without `re.ASCII`), a hyphen, an underscore or a dot is replaced
by `'_'`. -/

/-- Python's Unicode `\w` class: ASCII alphanumerics and underscore, plus
Unicode alphanumeric characters. The Latin-1 supplement is modelled
exactly (ª ² ³ µ ¹ º ¼ ½ ¾ and the accented letters, excluding × and ÷);
code points above U+00FF are modelled as word characters — Python matches
letters and digits there, e.g. Arabic letters, though not punctuation; no
theorem below depends on that range. -/
def pyWordChar (c : Char) : Bool :=
  let n := c.toNat
  decide (48 ≤ n ∧ n ≤ 57) || decide (65 ≤ n ∧ n ≤ 90) || decide (n = 95) ||
  decide (97 ≤ n ∧ n ≤ 122) ||
  decide (n = 0xAA) || decide (n = 0xB2) || decide (n = 0xB3) || decide (n = 0xB5) ||
  decide (n = 0xB9) || decide (n = 0xBA) || decide (0xBC ≤ n ∧ n ≤ 0xBE) ||
  decide (0xC0 ≤ n ∧ n ≤ 0xD6) || decide (0xD8 ≤ n ∧ n ≤ 0xF6) ||
  decide (0xF8 ≤ n ∧ n ≤ 0xFF) || decide (0x100 ≤ n)

/-- The computation of safe_name on line 39: replace every character
outside the regex class by an underscore. -/
def sanitizeName (s : String) : String :=
  ⟨s.data.map (fun c =>
    if pyWordChar c || c == '-' || c == '_' || c == '.' then c else '_')⟩

/-- The spec's description of sanitization ("replacing every character
outside `[A-Za-z0-9_.-]` with `_`"), for comparison with `sanitizeName`.
Modelled from the spec: used only to state claim C3. -/
def asciiSafeChar (c : Char) : Bool :=
  let n := c.toNat
  decide (65 ≤ n ∧ n ≤ 90) || decide (97 ≤ n ∧ n ≤ 122) ||
  decide (48 ≤ n ∧ n ≤ 57) || decide (n = 95) || decide (n = 46) || decide (n = 45)

/-- Sanitization as the spec words it. Modelled from the spec: used only
to state claim C3. -/
def sanitizeSpec (s : String) : String :=
  ⟨s.data.map (fun c => if asciiSafeChar c then c else '_')⟩

/-! ## `pathlib` name handling

`Path(p).suffix`: the extension of the final component — from the last
dot, provided it is neither the first nor past the last character of the
name. `Path(p).stem`: the final component without that suffix. Both are
modelled over the final component (`Path(p).name`). -/

def pathSuffix (name : String) : String :=
  let l := name.data
  match ((List.range l.length).filter (fun i => l.getD i ' ' = '.')).getLast? with
  | some i => if 0 < i ∧ i + 1 < l.length then ⟨l.drop i⟩ else ""
  | none => ""

def pathStem (name : String) : String :=
  ⟨name.data.take (name.data.length - (pathSuffix name).data.length)⟩

/-! ## The output store

The flat output directory of `.txt` artifacts, as an association list
from file name to file content; `fsLookup` is `Path.exists` plus `open`
for reading, `fsWrite` is `open(..., 'w')` (create or truncate). -/

abbrev Store := List (String × String)

def fsLookup : Store → String → Option String
  | [], _ => none
  | (k, v) :: rest, n => if k = n then some v else fsLookup rest n

def fsWrite (st : Store) (name content : String) : Store :=
  (name, content) :: st.filter (fun p => !(p.1 == name))

/-! ## Conflict checking (`OCRSystem._check_naming_conflict`, lines 74-110)

Reads the first 1000 characters of the existing output file, scans every
line of that window for the `Source File:` / `File Path:` /
`Extraction Date:` labels (a later match overwrites an earlier one), and
declares the same source when the recorded name equals the input's name
and — when a non-empty path was recorded — the recorded path equals the
input's path (`str(input_path)`); with no (or an empty) recorded path the
name match alone decides. -/

structure ConflictInfo where
  is_same_source : Bool
  existing_source : Option String
  extraction_date : Option String
  file_path : Option String
deriving DecidableEq, Repr

/-- One step of the `for line in lines` scan: the accumulator holds
(`existing_source`, `file_path`, `extraction_date`). The value of a
matching line is everything after the first colon, stripped — for these
labels, the characters after the label itself. -/
def scanLine (acc : Option String × Option String × Option String) (line : String) :
    Option String × Option String × Option String :=
  if strStarts line "Source File:" then (some (pyStrip (strDrop line 12)), acc.2.1, acc.2.2)
  else if strStarts line "File Path:" then (acc.1, some (pyStrip (strDrop line 10)), acc.2.2)
  else if strStarts line "Extraction Date:" then (acc.1, acc.2.1, some (pyStrip (strDrop line 16)))
  else acc

def checkNamingConflict (content inputName inputPath : String) : ConflictInfo :=
  let window := strTake content 1000
  let scanned := (splitLines window).foldl scanLine (none, none, none)
  let same : Bool :=
    match scanned.1, scanned.2.1 with
    | some s, some p =>
      if s = inputName then (if p ≠ "" then decide (inputPath = p) else true) else false
    | some s, none => decide (s = inputName)
    | none, _ => false
  ⟨same, scanned.1, scanned.2.2, scanned.2.1⟩

/-! ## Output-name generation (`OCRSystem.generate_output_filename`, lines 32-72) -/

/-- The alternative name built from the safe name and the counter:
safe_name, underscore, the decimal counter, and the txt extension. -/
def altName (safe : String) (k : Nat) : String :=
  ⟨safe.data ++ '_' :: (decStr k).data ++ ".txt".data⟩

/-- The `while output_file.exists()` loop: starting at `counter = k`, try
`safe_k.txt`, `safe_{k+1}.txt`, … until a free name is found. Python's
loop is unbounded; the fuel `st.length + 1` used below provably suffices
(`exists_free_altName`). -/
def findAlt (st : Store) (safe : String) : Nat → Nat → String
  | 0, k => altName safe k
  | fuel + 1, k =>
    if fsLookup st (altName safe k) = none then altName safe k
    else findAlt st safe fuel (k + 1)

/-- Returns `none` for "skip" (same source already processed), otherwise
the output name to write. -/
def generate_output_filename (st : Store) (stem inputName inputPath : String) :
    Option String :=
  let safe := sanitizeName stem
  let candidate : String := ⟨safe.data ++ ".txt".data⟩
  match fsLookup st candidate with
  | none => some candidate
  | some content =>
    let ci := checkNamingConflict content inputName inputPath
    if ci.is_same_source then none
    else some (findAlt st safe (st.length + 1) 1)

/-! ## Single-file processing (`OCRSystem.process_single_file`, lines 112-170)

The existence check on the input path (lines 116-118) concerns the input
filesystem, outside the output-store model; the extension dispatch and
extraction call (lines 120-136) are modelled by the `text` parameter
holding the extractor's result, with the supported-extension guard kept.
`date` is the formatted `datetime.now()`. -/

def supported_extensions : List String :=
  [".pdf", ".docx", ".doc", ".txt", ".png", ".jpg", ".jpeg", ".tiff", ".tif", ".bmp", ".gif"]

inductive Outcome where
  | written (name : String)
  | skipped
  | failed
  | unsupported
deriving DecidableEq, Repr

/-- The fixed provenance header followed by the extracted text, as written
by lines 148-155. `ext` is the lower-cased `Path.suffix` (leading dot
included). -/
def artifactContent (name path date ext text : String) : String :=
  ⟨"Source File: ".data ++ (name.data ++ '\n' ::
   ("File Path: ".data ++ (path.data ++ '\n' ::
   ("Extraction Date: ".data ++ (date.data ++ '\n' ::
   ("File Type: ".data ++ ((asciiUpper ext).data ++ '\n' ::
   ("Text Length: ".data ++ ((decStr text.length).data ++ (" characters".data ++ '\n' ::
   (List.replicate 80 '=' ++ '\n' :: '\n' :: text.data)))))))))))⟩

def process_single_file (st : Store) (name path date text : String) : Outcome × Store :=
  let extension := asciiLower (pathSuffix name)
  if ¬ supported_extensions.contains extension then (.unsupported, st)
  else if text ≠ "" ∧ (pyStrip text).length > 10 then
    match generate_output_filename st (pathStem name) name path with
    | none => (.skipped, st)
    | some outName =>
      (.written outName, fsWrite st outName (artifactContent name path date extension text))
  else (.failed, st)

/-! ## Legacy `.doc` fallback chain
(`DocumentProcessor._extract_text_from_legacy_doc`, lines 121-137)

`antiwordResult` and `rawScanResult` are the outputs of the two external
tiers (`_try_antiword`: the antiword subprocess, empty on failure;
`_try_text_extraction`: the heuristic binary scan, empty on failure);
`baseName` is `os.path.basename(doc_path)`. -/

def legacy_doc_extract (antiwordResult rawScanResult baseName : String) : String :=
  if antiwordResult ≠ "" ∧ (pyStrip antiwordResult).length > 10 then pyStrip antiwordResult
  else if rawScanResult ≠ "" ∧ (pyStrip rawScanResult).length > 10 then pyStrip rawScanResult
  else ⟨("Legacy .doc file detected. Please convert to .docx or PDF format " ++
        "for better text extraction. File: ").data ++ baseName.data⟩

/-! ## Character decoders

`DocumentProcessor.extract_text_from_txt` (lines 196-213) opens the file
with each encoding in a fixed list; a `UnicodeDecodeError` moves to the
next encoding. The decoders model CPython's strict codecs over the raw
bytes (`List Nat`, each < 256); `none` is a `UnicodeDecodeError`. -/

/-- UTF-8 continuation byte. -/
def contByte (b : Nat) : Bool := decide (0x80 ≤ b) && decide (b < 0xC0)

/-- Strict UTF-8 decoding (rejects overlong forms, surrogates, code
points above U+10FFFF, and truncated sequences), fuel-based on the byte
count. -/
def utf8DecodeCore : Nat → List Nat → Option (List Char)
  | _, [] => some []
  | 0, _ :: _ => none
  | fuel + 1, b :: rest =>
    if b < 0x80 then (utf8DecodeCore fuel rest).map (fun cs => Char.ofNat b :: cs)
    else if b < 0xC2 then none
    else if b < 0xE0 then
      match rest with
      | b2 :: rest2 =>
        if contByte b2 then
          (utf8DecodeCore fuel rest2).map
            (fun cs => Char.ofNat ((b - 0xC0) * 0x40 + (b2 - 0x80)) :: cs)
        else none
      | [] => none
    else if b < 0xF0 then
      match rest with
      | b2 :: b3 :: rest3 =>
        if contByte b2 && contByte b3 &&
           (decide (b ≠ 0xE0) || decide (0xA0 ≤ b2)) &&
           (decide (b ≠ 0xED) || decide (b2 < 0xA0)) then
          (utf8DecodeCore fuel rest3).map
            (fun cs => Char.ofNat ((b - 0xE0) * 0x1000 + (b2 - 0x80) * 0x40 + (b3 - 0x80)) :: cs)
        else none
      | _ => none
    else if b < 0xF5 then
      match rest with
      | b2 :: b3 :: b4 :: rest4 =>
        if contByte b2 && contByte b3 && contByte b4 &&
           (decide (b ≠ 0xF0) || decide (0x90 ≤ b2)) &&
           (decide (b ≠ 0xF4) || decide (b2 < 0x90)) then
          (utf8DecodeCore fuel rest4).map
            (fun cs => Char.ofNat ((b - 0xF0) * 0x40000 + (b2 - 0x80) * 0x1000 +
                                   (b3 - 0x80) * 0x40 + (b4 - 0x80)) :: cs)
        else none
      | _ => none
    else none

def decode_utf8 (bs : List Nat) : Option String :=
  (utf8DecodeCore bs.length bs).map (⟨·⟩)

/-- Pair bytes into little-endian 16-bit units; odd length is a decode
error ("truncated data"). -/
def pairBytesLE : List Nat → Option (List Nat)
  | [] => some []
  | [_] => none
  | b1 :: b2 :: rest => (pairBytesLE rest).map (fun us => (b2 * 256 + b1) :: us)

/-- Pair bytes into big-endian 16-bit units. -/
def pairBytesBE : List Nat → Option (List Nat)
  | [] => some []
  | [_] => none
  | b1 :: b2 :: rest => (pairBytesBE rest).map (fun us => (b1 * 256 + b2) :: us)

/-- Combine UTF-16 code units; a lone or mis-ordered surrogate is a
decode error. -/
def utf16Units : Nat → List Nat → Option (List Char)
  | _, [] => some []
  | 0, _ :: _ => none
  | fuel + 1, u :: rest =>
    if u < 0xD800 ∨ 0xE000 ≤ u then (utf16Units fuel rest).map (fun cs => Char.ofNat u :: cs)
    else if u < 0xDC00 then
      match rest with
      | u2 :: rest2 =>
        if 0xDC00 ≤ u2 ∧ u2 < 0xE000 then
          (utf16Units fuel rest2).map
            (fun cs => Char.ofNat (0x10000 + (u - 0xD800) * 0x400 + (u2 - 0xDC00)) :: cs)
        else none
      | [] => none
    else none

/-- Python's `utf-16` codec: honours a BOM, defaulting to the native byte
order (little-endian on the reference platform) without one. -/
def decode_utf16 (bs : List Nat) : Option String :=
  match bs with
  | 0xFF :: 0xFE :: rest => (pairBytesLE rest).bind (fun us => (utf16Units us.length us).map (⟨·⟩))
  | 0xFE :: 0xFF :: rest => (pairBytesBE rest).bind (fun us => (utf16Units us.length us).map (⟨·⟩))
  | _ => (pairBytesLE bs).bind (fun us => (utf16Units us.length us).map (⟨·⟩))

/-- Latin-1 maps every byte to the code point of the same value; it never
fails. -/
def decode_latin1 (bs : List Nat) : Option String :=
  some ⟨bs.map Char.ofNat⟩

/-- Windows-1252: Latin-1 except for the 0x80-0x9F row, where five bytes
are undefined (decode error). -/
def cp1252Map (b : Nat) : Option Nat :=
  if b < 0x80 ∨ 0xA0 ≤ b then some b else
  match b with
  | 0x80 => some 0x20AC | 0x82 => some 0x201A | 0x83 => some 0x0192
  | 0x84 => some 0x201E | 0x85 => some 0x2026 | 0x86 => some 0x2020
  | 0x87 => some 0x2021 | 0x88 => some 0x02C6 | 0x89 => some 0x2030
  | 0x8A => some 0x0160 | 0x8B => some 0x2039 | 0x8C => some 0x0152
  | 0x8E => some 0x017D | 0x91 => some 0x2018 | 0x92 => some 0x2019
  | 0x93 => some 0x201C | 0x94 => some 0x201D | 0x95 => some 0x2022
  | 0x96 => some 0x2013 | 0x97 => some 0x2014 | 0x98 => some 0x02DC
  | 0x99 => some 0x2122 | 0x9A => some 0x0161 | 0x9B => some 0x203A
  | 0x9C => some 0x0153 | 0x9E => some 0x017E | 0x9F => some 0x0178
  | _ => none

def decode_cp1252 (bs : List Nat) : Option String :=
  (bs.mapM cp1252Map).map (fun cs => ⟨cs.map Char.ofNat⟩)

/-- Python's `iso-8859-1` is an alias of `latin-1`: total over bytes. -/
def decode_iso8859_1 (bs : List Nat) : Option String :=
  some ⟨bs.map Char.ofNat⟩

/-- Windows-1256 (Arabic): every byte is defined; the high half follows
the code page's table. Unreachable in the fallback chain (Latin-1 and
iso-8859-1 precede it and never fail); no theorem depends on the table's
individual values. -/
def cp1256Map (b : Nat) : Nat :=
  if b < 0x80 then b else
  match b with
  | 0x80 => 0x20AC | 0x81 => 0x067E | 0x82 => 0x201A | 0x83 => 0x0192
  | 0x84 => 0x201E | 0x85 => 0x2026 | 0x86 => 0x2020 | 0x87 => 0x2021
  | 0x88 => 0x02C6 | 0x89 => 0x2030 | 0x8A => 0x0679 | 0x8B => 0x2039
  | 0x8C => 0x0152 | 0x8D => 0x0686 | 0x8E => 0x0698 | 0x8F => 0x0688
  | 0x90 => 0x06AF | 0x91 => 0x2018 | 0x92 => 0x2019 | 0x93 => 0x201C
  | 0x94 => 0x201D | 0x95 => 0x2022 | 0x96 => 0x2013 | 0x97 => 0x2014
  | 0x98 => 0x06A9 | 0x99 => 0x2122 | 0x9A => 0x0691 | 0x9B => 0x203A
  | 0x9C => 0x0153 | 0x9D => 0x200C | 0x9E => 0x200D | 0x9F => 0x06BA
  | 0xA1 => 0x060C | 0xAA => 0x06BE | 0xBA => 0x061B | 0xBF => 0x061F
  | 0xC0 => 0x06C1 | 0xC1 => 0x0621 | 0xC2 => 0x0622 | 0xC3 => 0x0623
  | 0xC4 => 0x0624 | 0xC5 => 0x0625 | 0xC6 => 0x0626 | 0xC7 => 0x0627
  | 0xC8 => 0x0628 | 0xC9 => 0x0629 | 0xCA => 0x062A | 0xCB => 0x062B
  | 0xCC => 0x062C | 0xCD => 0x062D | 0xCE => 0x062E | 0xCF => 0x062F
  | 0xD0 => 0x0630 | 0xD1 => 0x0631 | 0xD2 => 0x0632 | 0xD3 => 0x0633
  | 0xD4 => 0x0634 | 0xD5 => 0x0635 | 0xD6 => 0x0636 | 0xD8 => 0x0637
  | 0xD9 => 0x0638 | 0xDA => 0x0639 | 0xDB => 0x063A | 0xDC => 0x0640
  | 0xDD => 0x0641 | 0xDE => 0x0642 | 0xDF => 0x0643 | 0xE1 => 0x0644
  | 0xE3 => 0x0645 | 0xE4 => 0x0646 | 0xE5 => 0x0647 | 0xE6 => 0x0648
  | 0xEC => 0x0649 | 0xED => 0x064A | 0xF0 => 0x064B | 0xF1 => 0x064C
  | 0xF2 => 0x064D | 0xF3 => 0x064E | 0xF5 => 0x064F | 0xF6 => 0x0650
  | 0xF8 => 0x0651 | 0xFA => 0x0652 | 0xFD => 0x200E | 0xFE => 0x200F
  | 0xFF => 0x06D2 | _ => b

def decode_cp1256 (bs : List Nat) : Option String :=
  some ⟨bs.map (fun b => Char.ofNat (cp1256Map b))⟩

/-! ## `DocumentProcessor.extract_text_from_txt` (lines 196-213) -/

/-- The fallback loop: the first encoding that decodes without error and
whose stripped content is non-empty wins, and its stripped content is
returned; exhaustion returns the empty string. -/
def tryEncodings : List (List Nat → Option String) → List Nat → String
  | [], _ => ""
  | d :: ds, bs =>
    match d bs with
    | some s => if pyStrip s = "" then tryEncodings ds bs else pyStrip s
    | none => tryEncodings ds bs

/-- The fixed encoding list of line 198: utf-8, utf-16, latin-1, cp1252,
iso-8859-1, windows-1256. -/
def txtEncodings : List (List Nat → Option String) :=
  [decode_utf8, decode_utf16, decode_latin1, decode_cp1252, decode_iso8859_1, decode_cp1256]

def extract_text_from_txt (bs : List Nat) : String :=
  tryEncodings txtEncodings bs

/-! ## OCR post-processing (`OCRProcessor.clean_extracted_text`, lines 64-79) -/

/-- The space-collapsing substitution of line 77: collapse each maximal
run of space characters to a single space. The flag records whether the
previous emitted position was inside a run of spaces. -/
def collapseCore (prevSpace : Bool) : List Char → List Char
  | [] => []
  | c :: rest =>
    if c = ' ' then
      (if prevSpace then collapseCore true rest else ' ' :: collapseCore true rest)
    else c :: collapseCore false rest

def collapseSpaces (s : String) : String := ⟨collapseCore false s.data⟩

/-- Lines 64-79: split on newlines, strip each line, drop the empty ones,
rejoin with newlines, collapse space runs, strip the whole. -/
def clean_extracted_text (text : String) : String :=
  if text = "" then ""
  else
    let lines := ((splitLinesData text.data).map stripData).filter (· ≠ [])
    ⟨stripData (collapseCore false (joinLinesData lines))⟩

/-- Whether two consecutive spaces occur anywhere (used only to state
properties of the cleaner). -/
def hasDoubleSpace : List Char → Bool
  | [] => false
  | c :: rest => (c == ' ' && rest.head? == some ' ') || hasDoubleSpace rest

/-! ## Image OCR (`OCRProcessor.extract_text_from_image`, lines 41-62)

External effects as oracles: `preprocessResult` is `preprocess_image`'s
return (it catches its own exceptions and returns `None` on any failure);
`tessProcessed`/`tessOriginal` are the outcomes of the
`pytesseract.image_to_string` call on the preprocessed image
resp. on `Image.open(image_path)` — `none` meaning the call (or the
open) raised, which the enclosing `try` turns into an empty-string
return. -/

def extract_text_from_image (preprocessResult : Option Unit)
    (tessProcessed tessOriginal : Option String) : String :=
  match preprocessResult with
  | some _ =>
    match tessProcessed with
    | some t => clean_extracted_text t
    | none => ""
  | none =>
    match tessOriginal with
    | some t => clean_extracted_text t
    | none => ""

/-! ## PDF OCR fallback (`DocumentProcessor.ocr_pdf_pages`, lines 46-88)

The filesystem is a list of paths. `tempfile.mkdtemp()` creates the fresh
directory `tempDir`; `convert_from_path` writes `convFiles` (its own page
images) under it and either raises (`convert = none`) or returns the page
list. Per page: `image.save` (may raise — outer handler), the OCR call
(total, see `extract_text_from_image`), and `os.remove` in a bare
`try/except: pass` (`removeFails` models a swallowed failure). The
`finally` block calls the tree removal on every exit path, itself inside
a bare try/except-pass. -/

structure PdfPage where
  text : String
  saveFails : Bool
  removeFails : Bool
deriving DecidableEq, Repr

/-- Path membership in the temporary tree: the directory path is a string
prefix (the directory itself included). -/
def underDir (dir p : String) : Bool := dir.data.isPrefixOf p.data

/-- Recursive directory-tree removal. -/
def rmtree (fs : List String) (dir : String) : List String :=
  fs.filter (fun p => !(underDir dir p))

/-- The per-page image path joined under the temporary directory. -/
def pagePath (tempDir : String) (i : Nat) : String :=
  ⟨tempDir.data ++ "/page_".data ++ (decStr i).data ++ ".png".data⟩

/-- The `for i, image in enumerate(images)` loop; returns the accumulated
text and the filesystem when the loop ends or an exception escapes to the
outer handler. -/
def ocrLoop (tempDir : String) : List PdfPage → Nat → String → List String →
    String × List String
  | [], _, acc, fs => (acc, fs)
  | p :: rest, i, acc, fs =>
    if p.saveFails then (acc, fs)
    else
      ocrLoop tempDir rest (i + 1)
        (if pyStrip p.text ≠ "" then
          acc ++ "--- Page " ++ decStr (i + 1) ++ " ---\n" ++ pyStrip p.text ++ "\n\n"
         else acc)
        (if p.removeFails then fs ++ [pagePath tempDir i]
         else (fs ++ [pagePath tempDir i]).filter (fun q => q != pagePath tempDir i))

/-- Lines 79-86: the `finally` block checks that the directory still
exists (it always does here: only page files are removed mid-loop) and
calls `shutil.rmtree` inside a bare try/except-pass. `rmtreeFails = true`
models a swallowed rmtree failure, in which case the temporary tree
survives the call. -/
def ocr_pdf_pages (fs : List String) (tempDir : String) (convFiles : List String)
    (convert : Option (List PdfPage)) (rmtreeFails : Bool) : String × List String :=
  let fs1 := (fs ++ [tempDir]) ++ convFiles.map (fun n => (⟨tempDir.data ++ '/' :: n.data⟩ : String))
  match convert with
  | none => ("", if rmtreeFails then fs1 else rmtree fs1 tempDir)
  | some pages =>
    let r := ocrLoop tempDir pages 0 "" fs1
    (r.1, if rmtreeFails then r.2 else rmtree r.2 tempDir)

/-! ## Helper lemmas -/

theorem ne_empty_of_strip_pos {text : String} (h : 0 < (pyStrip text).length) :
    text ≠ "" := by
  intro h0
  subst h0
  exact absurd h (by decide)

/-! ## C10: the conflict decision depends only on the first 1000 characters -/

/-- C10: `_check_naming_conflict` reads at most the first 1000 characters
of the existing output file, so two contents agreeing on that window
yield the same `ConflictInfo` (and hence the same Skip/WriteAlternative
decision) for the same incoming source file; header fields beginning
after the window are ignored. -/
theorem conflict_check_reads_bounded_window (c1 c2 inputName inputPath : String)
    (h : strTake c1 1000 = strTake c2 1000) :
    checkNamingConflict c1 inputName inputPath = checkNamingConflict c2 inputName inputPath := by
  unfold checkNamingConflict
  rw [h]

set_option maxRecDepth 4000 in
/-- Concrete instance: a content whose extra `Source File:` line starts
after the 1000-character window is treated exactly like one without it. -/
theorem conflict_check_reads_bounded_window_witness :
    strTake ⟨List.replicate 1000 'a' ++ "\nSource File: spoof".data⟩ 1000 =
      strTake ⟨List.replicate 1000 'a'⟩ 1000 ∧
    checkNamingConflict ⟨List.replicate 1000 'a' ++ "\nSource File: spoof".data⟩ "x.txt" "/d/x.txt" =
      checkNamingConflict ⟨List.replicate 1000 'a'⟩ "x.txt" "/d/x.txt" :=
  ⟨by decide, conflict_check_reads_bounded_window _ _ "x.txt" "/d/x.txt" (by decide)⟩

/-! ## C1: re-ingesting the same source -/

set_option maxRecDepth 20000 in
/-- C1 counterexample: the Skip decision is computed from a scan of
*every* line of the artifact's first 1000 characters, not from the
header alone. An artifact whose genuine header records the same
sourceFileName and sourceFilePath — here, the artifact the pipeline
itself just wrote for `/a/doc.txt` — but whose extracted body contains a
line reading File Path followed by a different path is *not* recognized
as the same source: re-processing the very same file writes a second
artifact `doc_1.txt` instead of skipping, and the store grows to two
entries. -/
theorem reingest_spoof_counterexample :
    (process_single_file [] "doc.txt" "/a/doc.txt" "2024-01-01 00:00:00"
        "File Path: /b/doc.txt\nplenty of padding").1 = .written "doc.txt" ∧
    (splitLinesData (artifactContent "doc.txt" "/a/doc.txt" "2024-01-01 00:00:00" ".txt"
        "File Path: /b/doc.txt\nplenty of padding").data).take 2 =
      ["Source File: doc.txt".data, "File Path: /a/doc.txt".data] ∧
    (process_single_file
        (process_single_file [] "doc.txt" "/a/doc.txt" "2024-01-01 00:00:00"
          "File Path: /b/doc.txt\nplenty of padding").2
        "doc.txt" "/a/doc.txt" "2024-01-02 00:00:00"
        "File Path: /b/doc.txt\nplenty of padding").1 = .written "doc_1.txt" ∧
    (process_single_file
        (process_single_file [] "doc.txt" "/a/doc.txt" "2024-01-01 00:00:00"
          "File Path: /b/doc.txt\nplenty of padding").2
        "doc.txt" "/a/doc.txt" "2024-01-02 00:00:00"
        "File Path: /b/doc.txt\nplenty of padding").2.length = 2 := by decide

/-- C1 (amended): if the candidate output name already exists and the
1000-character conflict *scan* of its content reports exactly the
incoming file's name and (non-empty) absolute path — which holds for a
genuine header whenever the body does not spoof header lines inside the
window — then processing that file again yields the Skip outcome and
returns the store unchanged: the existing artifact is not overwritten
and no second file is created. -/
theorem reingest_same_source_skips (st : Store) (name path date text content : String)
    (hsupp : supported_extensions.contains (asciiLower (pathSuffix name)) = true)
    (hsig : 10 < (pyStrip text).length)
    (hlook : fsLookup st ⟨(sanitizeName (pathStem name)).data ++ ".txt".data⟩ = some content)
    (hname : (checkNamingConflict content name path).existing_source = some name)
    (hpath : (checkNamingConflict content name path).file_path = some path)
    (hne : path ≠ "") :
    process_single_file st name path date text = (.skipped, st) := by
  have htext : text ≠ "" := ne_empty_of_strip_pos (Nat.lt_of_lt_of_le (by omega) hsig.le)
  have hsame : (checkNamingConflict content name path).is_same_source = true := by
    unfold checkNamingConflict at hname hpath ⊢
    simp only at hname hpath ⊢
    rw [hname, hpath]
    simp [hne]
  unfold process_single_file generate_output_filename
  simp only [hsupp, Bool.not_true, hlook]
  rw [if_neg (by simp), if_pos ⟨htext, hsig⟩]
  simp [hsame]

/-- Concrete instance: a store holding the artifact written for
`/a/doc.txt` causes a second ingestion of `/a/doc.txt` to skip. -/
theorem reingest_same_source_skips_witness :
    process_single_file [("doc.txt", "Source File: doc.txt\nFile Path: /a/doc.txt\nExtraction Date: 2024-01-01 00:00:00\n")]
      "doc.txt" "/a/doc.txt" "2024-01-02 00:00:00" "Bonjour tout le monde" =
      (.skipped, [("doc.txt", "Source File: doc.txt\nFile Path: /a/doc.txt\nExtraction Date: 2024-01-01 00:00:00\n")]) :=
  reingest_same_source_skips _ _ _ _ _
    "Source File: doc.txt\nFile Path: /a/doc.txt\nExtraction Date: 2024-01-01 00:00:00\n"
    (by decide) (by decide) (by decide) (by decide) (by decide) (by decide)

/-! ## C5: encoding fallback order -/

/-- C5 counterexample: the reader returns the *stripped* decode, not the
decode itself. For bytes `20 E9 20`, UTF-8 and UTF-16 fail, Latin-1
decodes to `" é "` with non-empty strip — and the reader returns `"é"`,
not the Latin-1 decode `" é "` the claim names. -/
theorem txt_reader_encoding_order_counterexample :
    extract_text_from_txt [0x20, 0xE9, 0x20] = "é" ∧
    decode_utf8 [0x20, 0xE9, 0x20] = none ∧
    decode_utf16 [0x20, 0xE9, 0x20] = none ∧
    decode_latin1 [0x20, 0xE9, 0x20] = some " é " ∧
    ("é" : String) ≠ " é " := by decide

/-- C5 (amended): the reader tries the encodings in the fixed order and
returns the **stripped** decode of the first encoding that decodes
without error and strips to something non-empty; a first-successful
encoding hides all later ones; in particular, whenever UTF-8 and UTF-16
fail (or strip to empty), the result is the stripped Latin-1 decode,
whatever the later Windows-1252 / ISO-8859-1 / Windows-1256 decoders
would have produced. -/
theorem txt_reader_encoding_order (d : List Nat → Option String)
    (ds : List (List Nat → Option String)) (bs : List Nat) :
    (∀ s, d bs = some s → pyStrip s ≠ "" → tryEncodings (d :: ds) bs = pyStrip s) ∧
    ((d bs = none ∨ ∃ s, d bs = some s ∧ pyStrip s = "") →
      tryEncodings (d :: ds) bs = tryEncodings ds bs) ∧
    ((decode_utf8 bs = none ∨ ∃ s, decode_utf8 bs = some s ∧ pyStrip s = "") →
     (decode_utf16 bs = none ∨ ∃ s, decode_utf16 bs = some s ∧ pyStrip s = "") →
     pyStrip ⟨bs.map Char.ofNat⟩ ≠ "" →
     extract_text_from_txt bs = pyStrip ⟨bs.map Char.ofNat⟩) := by
  refine ⟨?_, ?_, ?_⟩
  · intro s hs hne
    simp [tryEncodings, hs, hne]
  · rintro (h | ⟨s, hs, hse⟩)
    · simp [tryEncodings, h]
    · simp [tryEncodings, hs, hse]
  · intro h8 h16 hl
    unfold extract_text_from_txt txtEncodings
    have step8 : tryEncodings [decode_utf8, decode_utf16, decode_latin1, decode_cp1252,
        decode_iso8859_1, decode_cp1256] bs = tryEncodings [decode_utf16, decode_latin1,
        decode_cp1252, decode_iso8859_1, decode_cp1256] bs := by
      rcases h8 with h | ⟨s, hs, hse⟩
      · simp [tryEncodings, h]
      · simp [tryEncodings, hs, hse]
    have step16 : tryEncodings [decode_utf16, decode_latin1, decode_cp1252,
        decode_iso8859_1, decode_cp1256] bs = tryEncodings [decode_latin1,
        decode_cp1252, decode_iso8859_1, decode_cp1256] bs := by
      rcases h16 with h | ⟨s, hs, hse⟩
      · simp [tryEncodings, h]
      · simp [tryEncodings, hs, hse]
    rw [step8, step16]
    simp [tryEncodings, decode_latin1, hl]

/-- Concrete instance: the lone byte `E9` fails UTF-8 and UTF-16 and is
returned as the (already stripped) Latin-1 decode `"é"`; a direct
application of the first-success clause to the Latin-1 decoder alone. -/
theorem txt_reader_encoding_order_witness :
    extract_text_from_txt [0xE9] = pyStrip ⟨[(0xE9 : Nat)].map Char.ofNat⟩ ∧
    tryEncodings [decode_latin1] [0xE9] = pyStrip "é" :=
  ⟨(txt_reader_encoding_order decode_utf8 [] [0xE9]).2.2
      (Or.inl (by decide)) (Or.inl (by decide)) (by decide),
   (txt_reader_encoding_order decode_latin1 [] [0xE9]).1 "é" (by decide) (by decide)⟩

/-! ## C9: totality of the reader and (un)reachability of the tail encodings -/

/-- C9 counterexample: an encoding listed after Latin-1 *can* be the one
whose decode is returned. The byte `85` decodes under Latin-1 to U+0085
(NEL), which `str.strip` removes, so the Latin-1 attempt yields empty
content and the loop continues to Windows-1252, whose decode `"…"` is
returned. -/
theorem txt_reader_tail_reachable_counterexample :
    extract_text_from_txt [0x85] = "…" ∧
    decode_utf8 [0x85] = none ∧
    decode_utf16 [0x85] = none ∧
    pyStrip ⟨[(0x85 : Nat)].map Char.ofNat⟩ = "" ∧
    decode_cp1252 [0x85] = some "…" ∧
    ("…" : String) ≠ "" := by decide

/-- C9 (amended): Latin-1 decoding never fails, so for every byte
sequence whose Latin-1 decode is non-empty after stripping the reader
returns a non-empty string, and the encodings after Latin-1
(Windows-1252, ISO-8859-1, Windows-1256) are not consulted — the result
coincides with running the chain cut off after Latin-1. Only when the
Latin-1 decode strips to empty (whitespace-only bytes) can a later
encoding's decode be returned. -/
theorem txt_reader_total_and_tail_unreachable (bs : List Nat)
    (hl : pyStrip ⟨bs.map Char.ofNat⟩ ≠ "") :
    extract_text_from_txt bs ≠ "" ∧
    extract_text_from_txt bs = tryEncodings [decode_utf8, decode_utf16, decode_latin1] bs := by
  unfold extract_text_from_txt txtEncodings
  cases h8 : decode_utf8 bs with
  | some s =>
    by_cases hse : pyStrip s = ""
    · simp only [tryEncodings, h8, hse, if_pos rfl]
      cases h16 : decode_utf16 bs with
      | some t =>
        by_cases hte : pyStrip t = ""
        · simp [tryEncodings, hte, decode_latin1, hl]
        · simp [tryEncodings, hte]
      | none => simp [tryEncodings, decode_latin1, hl]
    · simp [tryEncodings, h8, hse]
  | none =>
    simp only [tryEncodings, h8]
    cases h16 : decode_utf16 bs with
    | some t =>
      by_cases hte : pyStrip t = ""
      · simp [tryEncodings, hte, decode_latin1, hl]
      · simp [tryEncodings, hte]
    | none => simp [tryEncodings, decode_latin1, hl]

/-- Concrete instance: for the bytes of `"bonjour"`, the reader returns a
non-empty result equal to the three-encoding chain's result. -/
theorem txt_reader_total_and_tail_unreachable_witness :
    extract_text_from_txt [0x62, 0x6F, 0x6E] ≠ "" ∧
    extract_text_from_txt [0x62, 0x6F, 0x6E] =
      tryEncodings [decode_utf8, decode_utf16, decode_latin1] [0x62, 0x6F, 0x6E] :=
  txt_reader_total_and_tail_unreachable [0x62, 0x6F, 0x6E] (by decide)

/-! ## C6: the strictly-greater-than-10 significance threshold -/

/-- C6: a stripped extraction of at most 10 characters is reported Failed
and writes nothing; 11 or more (with a supported extension and, here, a
free candidate name) is persisted. The same strict bound governs the
accepting tiers of the legacy-`.doc` fallback chain: antiword's output is
accepted only above 10 stripped characters, else the raw binary scan's
output under the same bound, else the placeholder message. -/
theorem significance_threshold_boundary (st : Store) (name path date text a r base : String)
    (hsupp : supported_extensions.contains (asciiLower (pathSuffix name)) = true) :
    ((pyStrip text).length ≤ 10 → process_single_file st name path date text = (.failed, st)) ∧
    (11 ≤ (pyStrip text).length →
      fsLookup st ⟨(sanitizeName (pathStem name)).data ++ ".txt".data⟩ = none →
      process_single_file st name path date text =
        (.written ⟨(sanitizeName (pathStem name)).data ++ ".txt".data⟩,
         fsWrite st ⟨(sanitizeName (pathStem name)).data ++ ".txt".data⟩
           (artifactContent name path date (asciiLower (pathSuffix name)) text))) ∧
    (10 < (pyStrip a).length → legacy_doc_extract a r base = pyStrip a) ∧
    ((pyStrip a).length ≤ 10 → 10 < (pyStrip r).length → legacy_doc_extract a r base = pyStrip r) ∧
    ((pyStrip a).length ≤ 10 → (pyStrip r).length ≤ 10 →
      legacy_doc_extract a r base =
        ⟨("Legacy .doc file detected. Please convert to .docx or PDF format " ++
          "for better text extraction. File: ").data ++ base.data⟩) := by
  refine ⟨?_, ?_, ?_, ?_, ?_⟩
  · intro hle
    unfold process_single_file
    rw [if_neg (not_not_intro hsupp), if_neg (by omega)]
  · intro hge hfree
    have htext : text ≠ "" := ne_empty_of_strip_pos (by omega)
    unfold process_single_file generate_output_filename
    rw [if_neg (not_not_intro hsupp), if_pos ⟨htext, by omega⟩]
    simp only [hfree]
  · intro hgt
    have ha : a ≠ "" := ne_empty_of_strip_pos (by omega)
    unfold legacy_doc_extract
    rw [if_pos ⟨ha, hgt⟩]
  · intro hle hgt
    have hr : r ≠ "" := ne_empty_of_strip_pos (by omega)
    unfold legacy_doc_extract
    rw [if_neg (by omega), if_pos ⟨hr, hgt⟩]
  · intro hle1 hle2
    unfold legacy_doc_extract
    rw [if_neg (by omega), if_neg (by omega)]

/-- Concrete instance: 10 stripped characters fail, 11 are written, and
the legacy chain accepts antiword at 11 stripped characters, falls to the
raw scan at 10, and to the placeholder when both tiers are short. -/
theorem significance_threshold_boundary_witness :
    process_single_file [] "a.txt" "/d/a.txt" "2024-01-01 00:00:00" "0123456789" = (.failed, []) ∧
    process_single_file [] "a.txt" "/d/a.txt" "2024-01-01 00:00:00" "0123456789A" =
      (.written "a.txt",
       fsWrite [] "a.txt"
         (artifactContent "a.txt" "/d/a.txt" "2024-01-01 00:00:00" ".txt" "0123456789A")) ∧
    legacy_doc_extract "good antiword result" "x" "f.doc" = "good antiword result" ∧
    legacy_doc_extract "0123456789" "good raw scan text" "f.doc" = "good raw scan text" ∧
    legacy_doc_extract "0123456789" "0123456789" "f.doc" =
      ⟨("Legacy .doc file detected. Please convert to .docx or PDF format " ++
        "for better text extraction. File: ").data ++ "f.doc".data⟩ :=
  ⟨(significance_threshold_boundary [] "a.txt" "/d/a.txt" "2024-01-01 00:00:00"
      "0123456789" "" "" "" (by decide)).1 (by decide),
   (significance_threshold_boundary [] "a.txt" "/d/a.txt" "2024-01-01 00:00:00"
      "0123456789A" "" "" "" (by decide)).2.1 (by decide) (by decide),
   (significance_threshold_boundary [] "a.txt" "/d/a.txt" "d" ""
      "good antiword result" "x" "f.doc" (by decide)).2.2.1 (by decide),
   (significance_threshold_boundary [] "a.txt" "/d/a.txt" "d" ""
      "0123456789" "good raw scan text" "f.doc" (by decide)).2.2.2.1 (by decide) (by decide),
   (significance_threshold_boundary [] "a.txt" "/d/a.txt" "d" ""
      "0123456789" "0123456789" "f.doc" (by decide)).2.2.2.2 (by decide) (by decide)⟩

/-! ## Helper lemmas: characters, line splitting, decimal digits -/

theorem char_eq_iff_toNat {c d : Char} : c = d ↔ c.toNat = d.toNat :=
  ⟨fun h => h ▸ rfl, fun h => by
    have h2 := congrArg Char.ofNat h
    rwa [Char.ofNat_toNat, Char.ofNat_toNat] at h2⟩

theorem splitLinesCore_no_newline (l : List Char) : ∀ acc, '\n' ∉ l →
    splitLinesCore l acc = [acc.reverse ++ l] := by
  induction l with
  | nil => intro acc _; simp [splitLinesCore]
  | cons c l ih =>
    intro acc hl
    have hc : ¬ c = '\n' := fun h => hl (h ▸ List.mem_cons_self c l)
    have hl2 : '\n' ∉ l := fun h => hl (List.mem_cons_of_mem _ h)
    simp [splitLinesCore, hc, ih _ hl2]

theorem splitLinesCore_append (l : List Char) : ∀ (acc y : List Char), '\n' ∉ l →
    splitLinesCore (l ++ '\n' :: y) acc = (acc.reverse ++ l) :: splitLinesCore y [] := by
  induction l with
  | nil => intro acc y _; simp [splitLinesCore]
  | cons c l ih =>
    intro acc y hl
    have hc : ¬ c = '\n' := fun h => hl (h ▸ List.mem_cons_self c l)
    have hl2 : '\n' ∉ l := fun h => hl (List.mem_cons_of_mem _ h)
    simp [splitLinesCore, hc, ih _ _ hl2]

theorem splitLinesData_append {l : List Char} (y : List Char) (hl : '\n' ∉ l) :
    splitLinesData (l ++ '\n' :: y) = l :: splitLinesData y := by
  unfold splitLinesData
  rw [splitLinesCore_append l [] y hl]
  simp

theorem splitLinesData_append2 {a b : List Char} (y : List Char)
    (ha : '\n' ∉ a) (hb : '\n' ∉ b) :
    splitLinesData (a ++ (b ++ '\n' :: y)) = (a ++ b) :: splitLinesData y := by
  rw [← List.append_assoc, splitLinesData_append]
  intro hmem
  rcases List.mem_append.mp hmem with h | h
  · exact ha h
  · exact hb h

theorem splitLinesData_append3 {a b c : List Char} (y : List Char)
    (ha : '\n' ∉ a) (hb : '\n' ∉ b) (hc : '\n' ∉ c) :
    splitLinesData (a ++ (b ++ (c ++ '\n' :: y))) = (a ++ b ++ c) :: splitLinesData y := by
  rw [← List.append_assoc, ← List.append_assoc, splitLinesData_append]
  intro hmem
  rcases List.mem_append.mp hmem with h | h
  · rcases List.mem_append.mp h with h | h
    · exact ha h
    · exact hb h
  · exact hc h

theorem sanitizeName_data (s : String) :
    (sanitizeName s).data = s.data.map
      (fun c => if pyWordChar c || c == '-' || c == '_' || c == '.' then c else '_') := rfl

theorem artifactContent_data (name path date ext text : String) :
    (artifactContent name path date ext text).data =
      "Source File: ".data ++ (name.data ++ '\n' ::
      ("File Path: ".data ++ (path.data ++ '\n' ::
      ("Extraction Date: ".data ++ (date.data ++ '\n' ::
      ("File Type: ".data ++ ((asciiUpper ext).data ++ '\n' ::
      ("Text Length: ".data ++ ((decStr text.length).data ++ (" characters".data ++ '\n' ::
      (List.replicate 80 '=' ++ '\n' :: '\n' :: text.data))))))))))) := rfl

theorem digitChar_ne_newline (n : Nat) : digitChar n ≠ '\n' := by
  unfold digitChar
  split <;> decide

theorem decDigitsCore_no_newline (f : Nat) : ∀ n, '\n' ∉ decDigitsCore f n := by
  induction f with
  | zero => intro n; simp [decDigitsCore]
  | succ f ih =>
    intro n
    unfold decDigitsCore
    split
    · intro hmem
      simp only [List.mem_singleton] at hmem
      exact digitChar_ne_newline n hmem.symm
    · intro hmem
      rcases List.mem_append.mp hmem with h | h
      · exact ih _ h
      · simp only [List.mem_singleton] at h
        exact digitChar_ne_newline _ h.symm

theorem decStr_data_no_newline (n : Nat) : '\n' ∉ (decStr n).data :=
  decDigitsCore_no_newline (n + 1) n

/-! ## C3: sanitization and the safe ASCII set -/

/-- C3 counterexample: the regex `[^\w\-_\.]` is Unicode-aware, so the
accented letter é — outside `[A-Za-z0-9_.-]` — is *kept*, not replaced
by `_` as the claim requires. -/
theorem sanitize_unicode_counterexample :
    sanitizeName "café" ≠ sanitizeSpec "café" ∧
    sanitizeName "café" = "café" ∧
    sanitizeSpec "café" = "caf_" ∧
    asciiSafeChar 'é' = false := by decide

/-- C3 (amended): sanitization is character-wise and length-preserving,
and on ASCII characters it realizes exactly the claimed rule — an ASCII
character outside `[A-Za-z0-9_.-]` becomes `_`, one inside is kept;
non-ASCII word characters (accented letters, etc.) are kept rather than
replaced. -/
theorem sanitize_ascii_exact (s : String) :
    (sanitizeName s).data.length = s.data.length ∧
    ∀ (i : Nat) (h : i < s.data.length) (h2 : i < (sanitizeName s).data.length),
      (s.data.get ⟨i, h⟩).toNat < 128 →
        (sanitizeName s).data.get ⟨i, h2⟩ =
          (if asciiSafeChar (s.data.get ⟨i, h⟩) then s.data.get ⟨i, h⟩ else '_') := by
  refine ⟨by rw [sanitizeName_data, List.length_map], ?_⟩
  intro i h h2 hascii
  have key : (pyWordChar (s.data.get ⟨i, h⟩) || s.data.get ⟨i, h⟩ == '-' ||
      s.data.get ⟨i, h⟩ == '_' || s.data.get ⟨i, h⟩ == '.') =
      asciiSafeChar (s.data.get ⟨i, h⟩) := by
    have e1 : ('-' : Char).toNat = 45 := rfl
    have e2 : ('_' : Char).toNat = 95 := rfl
    have e3 : ('.' : Char).toNat = 46 := rfl
    rw [Bool.eq_iff_iff]
    simp only [pyWordChar, asciiSafeChar, Bool.or_eq_true,
      decide_eq_true_eq, beq_iff_eq, char_eq_iff_toNat, e1, e2, e3]
    omega
  simp only [List.get_eq_getElem, sanitizeName_data, List.getElem_map]
  simp only [List.get_eq_getElem] at key
  rw [key]

/-- Concrete instance: in `"a b"` the space (ASCII, unsafe) at index 1 is
replaced according to the ASCII rule. -/
theorem sanitize_ascii_exact_witness :
    (sanitizeName "a b").data.length = "a b".data.length ∧
    (sanitizeName "a b").data.get ⟨1, by decide⟩ =
      (if asciiSafeChar ("a b".data.get ⟨1, by decide⟩) then "a b".data.get ⟨1, by decide⟩
       else '_') :=
  ⟨(sanitize_ascii_exact "a b").1,
   (sanitize_ascii_exact "a b").2 1 (by decide) (by decide) (by decide)⟩

/-! ## C4: the artifact header -/

set_option maxRecDepth 10000 in
/-- C4 counterexample: `Path.suffix` keeps the leading dot and the header
writes `extension.upper()`, so ingesting `notes.txt` produces the header
line `File Type: .TXT`, not the claimed `File Type: TXT`. -/
theorem header_file_type_counterexample :
    (process_single_file [] "notes.txt" "/docs/notes.txt" "2024-01-01 00:00:00"
        "Bonjour tout le monde").2 =
      [("notes.txt", artifactContent "notes.txt" "/docs/notes.txt" "2024-01-01 00:00:00"
        ".txt" "Bonjour tout le monde")] ∧
    (splitLines (artifactContent "notes.txt" "/docs/notes.txt" "2024-01-01 00:00:00"
        ".txt" "Bonjour tout le monde")).getD 3 "" = "File Type: .TXT" ∧
    ("File Type: .TXT" : String) ≠ "File Type: TXT" := by decide

/-- C4 (amended): every written artifact starts with the five header
lines in order — Source File, File Path, Extraction Date, File Type,
Text Length — followed by the 80-character `=` rule line; the File Type
line holds the upper-cased extension *with its leading dot*, and the Text
Length line holds the decimal character count of the extracted text. -/
theorem artifact_header_format (name path date text : String)
    (hname : '\n' ∉ name.data) (hpath : '\n' ∉ path.data) (hdate : '\n' ∉ date.data)
    (hext : '\n' ∉ (asciiUpper (asciiLower (pathSuffix name))).data) :
    (splitLinesData (artifactContent name path date (asciiLower (pathSuffix name)) text).data).take 6 =
      ["Source File: ".data ++ name.data,
       "File Path: ".data ++ path.data,
       "Extraction Date: ".data ++ date.data,
       "File Type: ".data ++ (asciiUpper (asciiLower (pathSuffix name))).data,
       "Text Length: ".data ++ (decStr text.length).data ++ " characters".data,
       List.replicate 80 '='] := by
  rw [artifactContent_data,
      splitLinesData_append2 _ (by decide) hname,
      splitLinesData_append2 _ (by decide) hpath,
      splitLinesData_append2 _ (by decide) hdate,
      splitLinesData_append2 _ (by decide) hext,
      splitLinesData_append3 _ (by decide) (decStr_data_no_newline _) (by decide),
      splitLinesData_append _ (by simp [List.mem_replicate])]
  rfl

/-- Concrete instance: the header of the artifact for `notes.txt`. -/
theorem artifact_header_format_witness :
    (splitLinesData (artifactContent "notes.txt" "/docs/notes.txt" "2024-01-01 00:00:00"
        (asciiLower (pathSuffix "notes.txt")) "Bonjour tout le monde").data).take 6 =
      ["Source File: ".data ++ "notes.txt".data,
       "File Path: ".data ++ "/docs/notes.txt".data,
       "Extraction Date: ".data ++ "2024-01-01 00:00:00".data,
       "File Type: ".data ++ (asciiUpper (asciiLower (pathSuffix "notes.txt"))).data,
       "Text Length: ".data ++ (decStr ("Bonjour tout le monde" : String).length).data ++
         " characters".data,
       List.replicate 80 '='] :=
  artifact_header_format "notes.txt" "/docs/notes.txt" "2024-01-01 00:00:00"
    "Bonjour tout le monde" (by decide) (by decide) (by decide) (by decide)

/-! ## Helper lemmas: path prefixes and tree removal -/

theorem isPrefixOf_append_self (a b : List Char) : a.isPrefixOf (a ++ b) = true := by
  induction a with
  | nil => simp [List.isPrefixOf]
  | cons c a ih => simp [List.isPrefixOf, ih]

theorem underDir_self (d : String) : underDir d d = true := by
  have h := isPrefixOf_append_self d.data []
  rwa [List.append_nil] at h

theorem underDir_mk_append (d : String) (rest : List Char) :
    underDir d ⟨d.data ++ rest⟩ = true :=
  isPrefixOf_append_self d.data rest

theorem underDir_pagePath (tempDir : String) (i : Nat) :
    underDir tempDir (pagePath tempDir i) = true := by
  unfold pagePath underDir
  simp only [List.append_assoc]
  exact isPrefixOf_append_self _ _

theorem rmtree_not_under (fs : List String) (d : String) :
    ∀ q ∈ rmtree fs d, underDir d q = false := by
  intro q hq
  have h := (List.mem_filter.mp hq).2
  simpa using h

theorem rmtree_append_under (fs : List String) (d p : String) (h : underDir d p = true) :
    rmtree (fs ++ [p]) d = rmtree fs d := by
  simp [rmtree, List.filter_append, h]

theorem rmtree_filter_ne (fs : List String) (d p : String) (h : underDir d p = true) :
    rmtree (fs.filter (fun q => q != p)) d = rmtree fs d := by
  unfold rmtree
  rw [List.filter_filter]
  have hfun : (fun a => !underDir d a && (a != p)) = (fun a => !underDir d a) := by
    funext a
    by_cases ha : a = p
    · subst ha; simp [h]
    · simp [bne_iff_ne, ha]
  rw [hfun]

theorem ocrLoop_rmtree (tempDir : String) (pages : List PdfPage) :
    ∀ (i : Nat) (acc : String) (fs : List String),
      rmtree (ocrLoop tempDir pages i acc fs).2 tempDir = rmtree fs tempDir := by
  induction pages with
  | nil => intro i acc fs; rfl
  | cons p rest ih =>
    intro i acc fs
    unfold ocrLoop
    by_cases hs : p.saveFails = true
    · rw [if_pos hs]
    · rw [if_neg hs, ih]
      by_cases hr : p.removeFails = true
      · rw [if_pos hr]
        exact rmtree_append_under fs tempDir _ (underDir_pagePath tempDir i)
      · rw [if_neg hr]
        rw [rmtree_filter_ne _ tempDir _ (underDir_pagePath tempDir i)]
        exact rmtree_append_under fs tempDir _ (underDir_pagePath tempDir i)

theorem rmtree_setup (fs : List String) (tempDir : String) (convFiles : List String) :
    rmtree ((fs ++ [tempDir]) ++ convFiles.map
      (fun n => (⟨tempDir.data ++ '/' :: n.data⟩ : String))) tempDir = rmtree fs tempDir := by
  unfold rmtree
  rw [List.filter_append, List.filter_append]
  have h1 : List.filter (fun p => !underDir tempDir p) [tempDir] = [] := by
    simp [underDir_self]
  have h2 : List.filter (fun p => !underDir tempDir p)
      (convFiles.map (fun n => (⟨tempDir.data ++ '/' :: n.data⟩ : String))) = [] := by
    rw [List.filter_eq_nil_iff]
    intro a ha
    rcases List.mem_map.mp ha with ⟨n, _, rfl⟩
    simp [underDir_mk_append]
  rw [h1, h2, List.append_nil, List.append_nil]

/-! ## C8: survival of the temporary directory across `ocr_pdf_pages` -/

/-- C8 counterexample: the `finally` block wraps `shutil.rmtree` in a
bare try/except-pass, so a failing rmtree is swallowed and the
temporary directory — and a page image left behind by a failed
`os.remove` — survive the call: the cleanup is not guaranteed on every
exit path. -/
theorem pdf_ocr_rmtree_failure_counterexample :
    (ocr_pdf_pages ["keep.txt"] "tmpd" [] (some [⟨"Page text here", false, true⟩]) true).2 =
      ["keep.txt", "tmpd", "tmpd/page_0.png"] ∧
    "tmpd" ∈ (ocr_pdf_pages ["keep.txt"] "tmpd" [] (some [⟨"Page text here", false, true⟩]) true).2 ∧
    "tmpd/page_0.png" ∈
      (ocr_pdf_pages ["keep.txt"] "tmpd" [] (some [⟨"Page text here", false, true⟩]) true).2 ∧
    underDir "tmpd" "tmpd" = true ∧ underDir "tmpd" "tmpd/page_0.png" = true := by decide

/-- C8 (amended): the cleanup call is reached on every exit path, and
whenever the final `shutil.rmtree` itself does not fail (its failure
being the one error the block swallows), no path under the temporary
directory survives — whatever the conversion outcome (exception or page
list) and whatever per-page save/remove failures occurred — and a
filesystem that held nothing under the temporary directory is returned
exactly as it was: the directory, the converter's files and the
per-page images are all gone. -/
theorem pdf_ocr_temp_cleanup (fs : List String) (tempDir : String)
    (convFiles : List String) (convert : Option (List PdfPage)) :
    (∀ p ∈ (ocr_pdf_pages fs tempDir convFiles convert false).2, underDir tempDir p = false) ∧
    ((∀ p ∈ fs, underDir tempDir p = false) →
      (ocr_pdf_pages fs tempDir convFiles convert false).2 = fs) := by
  have hfs : ∀ (h : ∀ p ∈ fs, underDir tempDir p = false), rmtree fs tempDir = fs := by
    intro h
    unfold rmtree
    rw [List.filter_eq_self]
    intro a ha
    simp [h a ha]
  cases convert with
  | none =>
    constructor
    · intro p hp
      exact rmtree_not_under _ _ p hp
    · intro h
      show rmtree _ tempDir = fs
      rw [rmtree_setup]
      exact hfs h
  | some pages =>
    constructor
    · intro p hp
      exact rmtree_not_under _ _ p hp
    · intro h
      show rmtree (ocrLoop tempDir pages 0 "" _).2 tempDir = fs
      rw [ocrLoop_rmtree, rmtree_setup]
      exact hfs h

/-- Concrete instance: with a succeeding rmtree, a run over two pages
(the second failing to save) leaves the single pre-existing file and
nothing else. -/
theorem pdf_ocr_temp_cleanup_witness :
    (ocr_pdf_pages ["keep.txt"] "tmpd" ["conv.ppm"]
      (some [⟨"Page text here", false, false⟩, ⟨"x", true, false⟩]) false).2 = ["keep.txt"] :=
  (pdf_ocr_temp_cleanup ["keep.txt"] "tmpd" ["conv.ppm"]
    (some [⟨"Page text here", false, false⟩, ⟨"x", true, false⟩])).2 (by decide)

/-! ## Helper lemmas: injectivity of the counter-suffix names, pigeonhole,
and the alternative-name search -/

theorem digitVal_digitChar {m : Nat} (h : m < 10) : digitVal (digitChar m) = m := by
  interval_cases m <;> decide

theorem dec_roundtrip : ∀ f n, n < f →
    (decDigitsCore f n).foldl (fun a c => 10 * a + digitVal c) 0 = n := by
  intro f
  induction f with
  | zero => intro n h; omega
  | succ f ih =>
    intro n h
    unfold decDigitsCore
    by_cases h10 : n < 10
    · rw [if_pos h10]
      simp only [List.foldl]
      rw [digitVal_digitChar h10]
      omega
    · rw [if_neg h10]
      rw [List.foldl_append]
      have hdiv : n / 10 < f := by
        have h1 : n / 10 < n := Nat.div_lt_self (by omega) (by omega)
        omega
      rw [ih _ hdiv]
      simp only [List.foldl]
      rw [digitVal_digitChar (Nat.mod_lt _ (by omega))]
      omega

theorem decStr_injective : Function.Injective decStr := by
  intro a b h
  have hd : decDigitsCore (a + 1) a = decDigitsCore (b + 1) b := congrArg String.data h
  have ha := dec_roundtrip (a + 1) a (Nat.lt_succ_self a)
  have hb := dec_roundtrip (b + 1) b (Nat.lt_succ_self b)
  rw [hd] at ha
  exact ha.symm.trans hb

theorem altName_injective (safe : String) : Function.Injective (altName safe) := by
  intro a b h
  have hdata : (safe.data ++ '_' :: (decStr a).data) ++ ".txt".data =
      (safe.data ++ '_' :: (decStr b).data) ++ ".txt".data := congrArg String.data h
  have h1 := List.append_cancel_right hdata
  have h2 := List.append_cancel_left h1
  have h3 : (decStr a).data = (decStr b).data := by injection h2
  exact decStr_injective (show decStr a = decStr b from congrArg (fun l => (⟨l⟩ : String)) h3)

theorem fsLookup_ne_none_mem (st : Store) (n : String) (h : fsLookup st n ≠ none) :
    n ∈ st.map Prod.fst := by
  induction st with
  | nil => simp [fsLookup] at h
  | cons kv rest ih =>
    obtain ⟨k, v⟩ := kv
    by_cases hk : k = n
    · subst hk
      simp
    · unfold fsLookup at h
      rw [if_neg hk] at h
      simpa using Or.inr (ih h)

theorem exists_free_altName (st : Store) (safe : String) :
    ∃ i, i < st.length + 1 ∧ fsLookup st (altName safe (1 + i)) = none := by
  by_contra hcon
  push_neg at hcon
  have hmem : ∀ i, i < st.length + 1 → altName safe (1 + i) ∈ st.map Prod.fst := by
    intro i hi
    exact fsLookup_ne_none_mem _ _ (hcon i hi)
  have hinj : Function.Injective (fun i : Nat => altName safe (1 + i)) := by
    intro a b hab
    have := altName_injective safe hab
    omega
  have hsub : (List.range (st.length + 1)).map (fun i => altName safe (1 + i)) ⊆
      st.map Prod.fst := by
    intro a ha
    rcases List.mem_map.mp ha with ⟨i, hi, rfl⟩
    exact hmem i (List.mem_range.mp hi)
  have hnodup : ((List.range (st.length + 1)).map (fun i => altName safe (1 + i))).Nodup :=
    List.Nodup.map hinj (List.nodup_range _)
  have hle := (List.subperm_of_subset hnodup hsub).length_le
  simp only [List.length_map, List.length_range] at hle
  omega

theorem findAlt_free (st : Store) (safe : String) :
    ∀ (fuel k : Nat), (∃ i, i < fuel ∧ fsLookup st (altName safe (k + i)) = none) →
      fsLookup st (findAlt st safe fuel k) = none := by
  intro fuel
  induction fuel with
  | zero =>
    rintro k ⟨i, hi, _⟩
    omega
  | succ fuel ih =>
    rintro k ⟨i, hi, hfree⟩
    unfold findAlt
    by_cases h0 : fsLookup st (altName safe k) = none
    · rw [if_pos h0]
      exact h0
    · rw [if_neg h0]
      apply ih
      cases i with
      | zero => exact absurd (by simpa using hfree) h0
      | succ j =>
        refine ⟨j, by omega, ?_⟩
        rw [show k + 1 + j = k + (j + 1) from by omega]
        exact hfree

theorem generate_alt_free (st : Store) (safe : String) :
    fsLookup st (findAlt st safe (st.length + 1) 1) = none := by
  obtain ⟨i, hi, hfree⟩ := exists_free_altName st safe
  exact findAlt_free st safe (st.length + 1) 1 ⟨i, hi, hfree⟩

theorem fsLookup_fsWrite_same (st : Store) (n c : String) :
    fsLookup (fsWrite st n c) n = some c := by
  simp [fsWrite, fsLookup]

theorem fsLookup_filter_ne (st : Store) (n m : String) (h : m ≠ n) :
    fsLookup (st.filter (fun p => !(p.1 == n))) m = fsLookup st m := by
  induction st with
  | nil => rfl
  | cons kv rest ih =>
    obtain ⟨k, v⟩ := kv
    by_cases hk : k = n
    · have hfil : List.filter (fun p => !(p.1 == n)) ((k, v) :: rest) =
          List.filter (fun p => !(p.1 == n)) rest := by
        simp [List.filter_cons, hk]
      have hkm : ¬ k = m := fun he => h (he ▸ hk)
      rw [hfil, ih]
      conv_rhs => unfold fsLookup
      rw [if_neg hkm]
    · have hfil : List.filter (fun p => !(p.1 == n)) ((k, v) :: rest) =
          (k, v) :: List.filter (fun p => !(p.1 == n)) rest := by
        simp [List.filter_cons, hk]
      rw [hfil]
      unfold fsLookup
      by_cases hkm : k = m
      · rw [if_pos hkm, if_pos hkm]
      · rw [if_neg hkm, if_neg hkm]
        exact ih

theorem fsLookup_fsWrite_other (st : Store) (n c m : String) (h : m ≠ n) :
    fsLookup (fsWrite st n c) m = fsLookup st m := by
  unfold fsWrite
  have hstep : fsLookup ((n, c) :: st.filter (fun p => !(p.1 == n))) m =
      fsLookup (st.filter (fun p => !(p.1 == n))) m := by
    rw [show fsLookup ((n, c) :: st.filter (fun p => !(p.1 == n))) m =
          if n = m then some c else fsLookup (st.filter (fun p => !(p.1 == n))) m from rfl,
        if_neg (fun he => h he.symm)]
  rw [hstep, fsLookup_filter_ne st n m h]

/-! ## C2: collision safety -/

set_option maxRecDepth 20000 in
/-- C2 counterexample: the conflict scan reads *every* line of the first
1000 characters, so an extracted text that itself contains
`Source File:` / `File Path:` lines overrides the real header. Two
distinct sources (`/a/doc.txt` and `/b/doc.txt`) with the same sanitized
stem then produce only ONE artifact: the second ingestion is Skipped
because the first artifact's body spoofs the second file's provenance. -/
theorem collision_spoof_counterexample :
    (process_single_file [] "doc.txt" "/a/doc.txt" "2024-01-01 00:00:00"
        "Source File: doc.txt\nFile Path: /b/doc.txt\npadding").1 =
      .written "doc.txt" ∧
    process_single_file
        (process_single_file [] "doc.txt" "/a/doc.txt" "2024-01-01 00:00:00"
          "Source File: doc.txt\nFile Path: /b/doc.txt\npadding").2
        "doc.txt" "/b/doc.txt" "2024-01-02 00:00:00" "hello world abc" =
      (.skipped,
       (process_single_file [] "doc.txt" "/a/doc.txt" "2024-01-01 00:00:00"
          "Source File: doc.txt\nFile Path: /b/doc.txt\npadding").2) ∧
    (process_single_file [] "doc.txt" "/a/doc.txt" "2024-01-01 00:00:00"
        "Source File: doc.txt\nFile Path: /b/doc.txt\npadding").2.length = 1 ∧
    ("/a/doc.txt" : String) ≠ "/b/doc.txt" := by decide

/-- C2 (amended): when the existing artifact at the shared candidate name
truly records the first file's provenance (scanned name `name1` and
non-empty path `path1`, the body not spoofing header lines in the
1000-character window) and the second source is a different file
(`path2 ≠ path1`), ingesting the second file writes a counter-suffixed
alternative name that is free in the store: the first artifact is still
readable under the candidate name, untouched, and the second under the
alternative name — two distinct artifacts, no overwrite. -/
theorem collision_writes_alternative (st : Store)
    (name1 path1 name2 path2 date2 text2 content1 : String)
    (hsupp : supported_extensions.contains (asciiLower (pathSuffix name2)) = true)
    (hsig : 10 < (pyStrip text2).length)
    (hlook : fsLookup st ⟨(sanitizeName (pathStem name2)).data ++ ".txt".data⟩ = some content1)
    (hname : (checkNamingConflict content1 name2 path2).existing_source = some name1)
    (hpath : (checkNamingConflict content1 name2 path2).file_path = some path1)
    (hne1 : path1 ≠ "") (hdiff : path2 ≠ path1) :
    process_single_file st name2 path2 date2 text2 =
      (.written (findAlt st (sanitizeName (pathStem name2)) (st.length + 1) 1),
       fsWrite st (findAlt st (sanitizeName (pathStem name2)) (st.length + 1) 1)
         (artifactContent name2 path2 date2 (asciiLower (pathSuffix name2)) text2)) ∧
    fsLookup st (findAlt st (sanitizeName (pathStem name2)) (st.length + 1) 1) = none ∧
    findAlt st (sanitizeName (pathStem name2)) (st.length + 1) 1 ≠
      (⟨(sanitizeName (pathStem name2)).data ++ ".txt".data⟩ : String) ∧
    fsLookup (fsWrite st (findAlt st (sanitizeName (pathStem name2)) (st.length + 1) 1)
        (artifactContent name2 path2 date2 (asciiLower (pathSuffix name2)) text2))
      (⟨(sanitizeName (pathStem name2)).data ++ ".txt".data⟩ : String) = some content1 ∧
    fsLookup (fsWrite st (findAlt st (sanitizeName (pathStem name2)) (st.length + 1) 1)
        (artifactContent name2 path2 date2 (asciiLower (pathSuffix name2)) text2))
      (findAlt st (sanitizeName (pathStem name2)) (st.length + 1) 1) =
      some (artifactContent name2 path2 date2 (asciiLower (pathSuffix name2)) text2) := by
  have htext : text2 ≠ "" := ne_empty_of_strip_pos (by omega)
  have hfree := generate_alt_free st (sanitizeName (pathStem name2))
  have hnecand : findAlt st (sanitizeName (pathStem name2)) (st.length + 1) 1 ≠
      (⟨(sanitizeName (pathStem name2)).data ++ ".txt".data⟩ : String) := by
    intro he
    rw [he, hlook] at hfree
    exact Option.noConfusion hfree
  have hsame : (checkNamingConflict content1 name2 path2).is_same_source = false := by
    unfold checkNamingConflict at hname hpath ⊢
    simp only at hname hpath ⊢
    rw [hname, hpath]
    by_cases hn : name1 = name2
    · simp [hn, hne1, hdiff]
    · simp [hn]
  refine ⟨?_, hfree, hnecand, ?_, ?_⟩
  · unfold process_single_file generate_output_filename
    simp only [hlook]
    rw [if_neg (not_not_intro hsupp), if_pos ⟨htext, hsig⟩]
    simp [hsame]
  · rw [fsLookup_fsWrite_other _ _ _ _ (Ne.symm hnecand)]
    exact hlook
  · exact fsLookup_fsWrite_same _ _ _

/-- Concrete instance: with `doc.txt` already present for `/a/doc.txt`,
ingesting `/b/doc.txt` (same stem `doc`) writes the free alternative name
chosen by the counter search, and both artifacts are readable. -/
theorem collision_writes_alternative_witness :
    process_single_file [("doc.txt", "Source File: doc.txt\nFile Path: /a/doc.txt\n")]
        "doc.txt" "/b/doc.txt" "2024-01-02 00:00:00" "hello world abc" =
      (.written (findAlt [("doc.txt", "Source File: doc.txt\nFile Path: /a/doc.txt\n")]
          (sanitizeName (pathStem "doc.txt"))
          ([("doc.txt", "Source File: doc.txt\nFile Path: /a/doc.txt\n")].length + 1) 1),
       fsWrite [("doc.txt", "Source File: doc.txt\nFile Path: /a/doc.txt\n")]
         (findAlt [("doc.txt", "Source File: doc.txt\nFile Path: /a/doc.txt\n")]
           (sanitizeName (pathStem "doc.txt"))
           ([("doc.txt", "Source File: doc.txt\nFile Path: /a/doc.txt\n")].length + 1) 1)
         (artifactContent "doc.txt" "/b/doc.txt" "2024-01-02 00:00:00"
           (asciiLower (pathSuffix "doc.txt")) "hello world abc")) ∧
    fsLookup [("doc.txt", "Source File: doc.txt\nFile Path: /a/doc.txt\n")]
      (findAlt [("doc.txt", "Source File: doc.txt\nFile Path: /a/doc.txt\n")]
        (sanitizeName (pathStem "doc.txt"))
        ([("doc.txt", "Source File: doc.txt\nFile Path: /a/doc.txt\n")].length + 1) 1) = none :=
  ⟨((collision_writes_alternative [("doc.txt", "Source File: doc.txt\nFile Path: /a/doc.txt\n")]
      "doc.txt" "/a/doc.txt" "doc.txt" "/b/doc.txt" "2024-01-02 00:00:00" "hello world abc"
      "Source File: doc.txt\nFile Path: /a/doc.txt\n"
      (by decide) (by decide) (by decide) (by decide) (by decide) (by decide) (by decide))).1,
   ((collision_writes_alternative [("doc.txt", "Source File: doc.txt\nFile Path: /a/doc.txt\n")]
      "doc.txt" "/a/doc.txt" "doc.txt" "/b/doc.txt" "2024-01-02 00:00:00" "hello world abc"
      "Source File: doc.txt\nFile Path: /a/doc.txt\n"
      (by decide) (by decide) (by decide) (by decide) (by decide) (by decide) (by decide))).2.1⟩

/-! ## Helper lemmas: ends of stripped lists -/

theorem dropWhile_head_false {p : Char → Bool} {l : List Char} {c : Char}
    (h : (l.dropWhile p).head? = some c) : p c = false := by
  induction l with
  | nil => simp [List.dropWhile] at h
  | cons a l ih =>
    by_cases hp : p a = true
    · rw [List.dropWhile_cons_of_pos hp] at h
      exact ih h
    · rw [List.dropWhile_cons_of_neg hp] at h
      simp only [List.head?_cons, Option.some.injEq] at h
      subst h
      exact Bool.eq_false_iff.mpr hp

theorem dropWhile_getLast_of_ne_nil {p : Char → Bool} {l : List Char}
    (h : l.dropWhile p ≠ []) : (l.dropWhile p).getLast? = l.getLast? := by
  obtain ⟨pre, hpre⟩ := List.dropWhile_suffix (l := l) (p := p)
  conv_rhs => rw [← hpre]
  rw [List.getLast?_append]
  cases hgl : (l.dropWhile p).getLast? with
  | none => exact absurd (List.getLast?_eq_none_iff.mp hgl) h
  | some c => rfl

theorem stripData_head_false {l : List Char} {c : Char}
    (h : (stripData l).head? = some c) : pyIsSpace c = false := by
  unfold stripData at h
  rw [List.head?_reverse] at h
  have hne : (l.dropWhile pyIsSpace).reverse.dropWhile pyIsSpace ≠ [] := by
    intro he
    rw [he] at h
    simp at h
  rw [dropWhile_getLast_of_ne_nil hne, List.getLast?_reverse] at h
  exact dropWhile_head_false h

theorem stripData_getLast_false {l : List Char} {c : Char}
    (h : (stripData l).getLast? = some c) : pyIsSpace c = false := by
  unfold stripData at h
  rw [List.getLast?_reverse] at h
  exact dropWhile_head_false h

theorem dropWhile_eq_self_of_head {p : Char → Bool} {l : List Char}
    (h : ∀ c, l.head? = some c → p c = false) : l.dropWhile p = l := by
  cases l with
  | nil => rfl
  | cons a l =>
    have ha := h a rfl
    rw [List.dropWhile_cons_of_neg (by simp [ha])]

theorem stripData_eq_self {l : List Char}
    (hh : ∀ c, l.head? = some c → pyIsSpace c = false)
    (hg : ∀ c, l.getLast? = some c → pyIsSpace c = false) : stripData l = l := by
  unfold stripData
  rw [dropWhile_eq_self_of_head hh]
  rw [dropWhile_eq_self_of_head (fun c hc => hg c (by rwa [List.head?_reverse] at hc))]
  exact List.reverse_reverse l

theorem stripData_idem (l : List Char) : stripData (stripData l) = stripData l :=
  stripData_eq_self (fun _ hc => stripData_head_false hc)
    (fun _ hc => stripData_getLast_false hc)

theorem stripData_mem {l : List Char} {c : Char} (h : c ∈ stripData l) : c ∈ l := by
  unfold stripData at h
  rw [List.mem_reverse] at h
  have h2 := (List.dropWhile_sublist _).mem h
  rw [List.mem_reverse] at h2
  exact (List.dropWhile_sublist _).mem h2

/-! ## Helper lemmas: space collapsing -/

theorem getLast?_cons_ne_nil {x : Char} {L : List Char} (h : L ≠ []) :
    (x :: L).getLast? = L.getLast? := by
  cases L with
  | nil => exact absurd rfl h
  | cons y ys => rw [List.getLast?_cons_cons]

theorem collapseCore_head (l : List Char) : (collapseCore false l).head? = l.head? := by
  cases l with
  | nil => rfl
  | cons c rest =>
    unfold collapseCore
    by_cases hc : c = ' '
    · rw [if_pos hc]
      simp [hc]
    · rw [if_neg hc]
      simp

theorem collapseCore_ne_nil {l : List Char} (h : l ≠ []) : collapseCore false l ≠ [] := by
  intro he
  have hh := collapseCore_head l
  rw [he] at hh
  cases l with
  | nil => exact h rfl
  | cons c rest => simp at hh

theorem collapseCore_true_head : ∀ (l : List Char) {c : Char},
    (collapseCore true l).head? = some c → c ≠ ' ' := by
  intro l
  induction l with
  | nil => intro c h; simp [collapseCore] at h
  | cons a rest ih =>
    intro c h
    unfold collapseCore at h
    by_cases ha : a = ' '
    · rw [if_pos ha, if_pos rfl] at h
      exact ih h
    · rw [if_neg ha] at h
      simp only [List.head?_cons, Option.some.injEq] at h
      exact h ▸ ha

theorem collapseCore_getLast (c : Char) (hc : c ≠ ' ') :
    ∀ (l : List Char) (b : Bool), l.getLast? = some c →
      (collapseCore b l).getLast? = some c ∧ collapseCore b l ≠ [] := by
  intro l
  induction l with
  | nil => intro b h; simp at h
  | cons a rest ih =>
    intro b h
    cases rest with
    | nil =>
      have hac : a = c := by simpa using h
      subst hac
      unfold collapseCore
      rw [if_neg hc]
      simp [collapseCore]
    | cons y ys =>
      have htail : (y :: ys).getLast? = some c := by
        rw [List.getLast?_cons_cons] at h
        exact h
      unfold collapseCore
      by_cases ha : a = ' '
      · rw [if_pos ha]
        by_cases hb : b = true
        · rw [if_pos hb]
          exact ih true htail
        · rw [if_neg hb]
          obtain ⟨hl, hn⟩ := ih true htail
          exact ⟨by rw [getLast?_cons_ne_nil hn]; exact hl, by simp⟩
      · rw [if_neg ha]
        obtain ⟨hl, hn⟩ := ih false htail
        exact ⟨by rw [getLast?_cons_ne_nil hn]; exact hl, by simp⟩

theorem collapseCore_noDouble : ∀ (l : List Char) (b : Bool),
    hasDoubleSpace (collapseCore b l) = false := by
  intro l
  induction l with
  | nil => intro b; rfl
  | cons a rest ih =>
    intro b
    unfold collapseCore
    by_cases ha : a = ' '
    · rw [if_pos ha]
      by_cases hb : b = true
      · rw [if_pos hb]
        exact ih true
      · rw [if_neg hb]
        cases hX : (collapseCore true rest).head? with
        | none => simp [hasDoubleSpace, hX, ih true]
        | some d =>
          have hd := collapseCore_true_head rest hX
          simp [hasDoubleSpace, hX, ih true, hd]
    · rw [if_neg ha]
      simp [hasDoubleSpace, ih false, ha]

theorem collapseCore_mem : ∀ (l : List Char) (b : Bool) (c : Char),
    c ∈ collapseCore b l → c ∈ l := by
  intro l
  induction l with
  | nil => intro b c h; simp [collapseCore] at h
  | cons a rest ih =>
    intro b c h
    unfold collapseCore at h
    by_cases ha : a = ' '
    · rw [if_pos ha] at h
      by_cases hb : b = true
      · rw [if_pos hb] at h
        exact List.mem_cons_of_mem a (ih true c h)
      · rw [if_neg hb] at h
        rcases List.mem_cons.mp h with h1 | h1
        · rw [h1, ha]
          exact List.mem_cons_self _ _
        · exact List.mem_cons_of_mem a (ih true c h1)
    · rw [if_neg ha] at h
      rcases List.mem_cons.mp h with h1 | h1
      · exact h1 ▸ List.mem_cons_self a rest
      · exact List.mem_cons_of_mem a (ih false c h1)

theorem collapseCore_append : ∀ (x : List Char) (b : Bool) (y : List Char),
    collapseCore b (x ++ '\n' :: y) = collapseCore b x ++ '\n' :: collapseCore false y := by
  intro x
  induction x with
  | nil => intro b y; simp [collapseCore]
  | cons a rest ih =>
    intro b y
    by_cases ha : a = ' '
    · by_cases hb : b = true <;> simp [List.cons_append, collapseCore, ha, hb, ih]
    · simp [List.cons_append, collapseCore, ha, ih]

/-! ## Helper lemmas: joining and re-splitting lines -/

theorem splitLinesData_no_newline {l : List Char} (h : '\n' ∉ l) :
    splitLinesData l = [l] := by
  unfold splitLinesData
  rw [splitLinesCore_no_newline l [] h]
  simp

theorem splitLinesCore_mem_no_newline : ∀ (l acc : List Char), (∀ c ∈ acc, c ≠ '\n') →
    ∀ p ∈ splitLinesCore l acc, '\n' ∉ p := by
  intro l
  induction l with
  | nil =>
    intro acc hacc p hp hmem
    simp only [splitLinesCore, List.mem_singleton] at hp
    subst hp
    exact hacc '\n' (List.mem_reverse.mp hmem) rfl
  | cons c rest ih =>
    intro acc hacc p hp
    unfold splitLinesCore at hp
    by_cases hc : c = '\n'
    · rw [if_pos hc] at hp
      rcases List.mem_cons.mp hp with h1 | h1
      · subst h1
        intro hmem
        exact hacc '\n' (List.mem_reverse.mp hmem) rfl
      · exact ih [] (by simp) p h1
    · rw [if_neg hc] at hp
      refine ih (c :: acc) ?_ p hp
      intro d hd
      rcases List.mem_cons.mp hd with h1 | h1
      · exact h1 ▸ hc
      · exact hacc d h1

theorem splitLinesData_mem_no_newline (l : List Char) :
    ∀ p ∈ splitLinesData l, '\n' ∉ p :=
  splitLinesCore_mem_no_newline l [] (by simp)

theorem joinLinesData_ne_nil : ∀ (L : List (List Char)), L ≠ [] → (∀ m ∈ L, m ≠ []) →
    joinLinesData L ≠ [] := by
  intro L hL hmem
  cases L with
  | nil => exact absurd rfl hL
  | cons l rest =>
    cases rest with
    | nil => exact hmem l (List.mem_cons_self _ _)
    | cons l2 rest2 =>
      show l ++ '\n' :: joinLinesData (l2 :: rest2) ≠ []
      simp

theorem join_head_prop (P : Char → Prop) : ∀ (L : List (List Char)),
    (∀ m ∈ L, m ≠ []) → (∀ m ∈ L, ∀ c, m.head? = some c → P c) →
    ∀ c, (joinLinesData L).head? = some c → P c := by
  intro L
  cases L with
  | nil => intro _ _ c hc; simp [joinLinesData] at hc
  | cons l rest =>
    intro hne hhead c hc
    cases rest with
    | nil => exact hhead l (List.mem_cons_self _ _) c hc
    | cons l2 rest2 =>
      have : (joinLinesData (l :: l2 :: rest2)).head? = l.head? := by
        show (l ++ '\n' :: joinLinesData (l2 :: rest2)).head? = l.head?
        rw [List.head?_append]
        cases hl : l.head? with
        | none => exact absurd (List.head?_eq_none_iff.mp hl) (hne l (List.mem_cons_self _ _))
        | some a => rfl
      rw [this] at hc
      exact hhead l (List.mem_cons_self _ _) c hc

theorem join_getLast_prop (P : Char → Prop) : ∀ (L : List (List Char)),
    (∀ m ∈ L, m ≠ []) → (∀ m ∈ L, ∀ c, m.getLast? = some c → P c) →
    ∀ c, (joinLinesData L).getLast? = some c → P c := by
  intro L
  induction L with
  | nil => intro _ _ c hc; simp [joinLinesData] at hc
  | cons l rest ih =>
    intro hne hlast c hc
    cases rest with
    | nil => exact hlast l (List.mem_cons_self _ _) c hc
    | cons l2 rest2 =>
      have hJ2 : joinLinesData (l2 :: rest2) ≠ [] :=
        joinLinesData_ne_nil _ (by simp) (fun m hm => hne m (List.mem_cons_of_mem l hm))
      have hstep : (joinLinesData (l :: l2 :: rest2)).getLast? =
          (joinLinesData (l2 :: rest2)).getLast? := by
        show (l ++ '\n' :: joinLinesData (l2 :: rest2)).getLast? = _
        rw [List.getLast?_append, getLast?_cons_ne_nil hJ2]
        cases hg : (joinLinesData (l2 :: rest2)).getLast? with
        | none => exact absurd (List.getLast?_eq_none_iff.mp hg) hJ2
        | some a => rfl
      rw [hstep] at hc
      exact ih (fun m hm => hne m (List.mem_cons_of_mem l hm))
        (fun m hm => hlast m (List.mem_cons_of_mem l hm)) c hc

theorem hasDoubleSpace_append_newline : ∀ (a b : List Char),
    hasDoubleSpace a = false → hasDoubleSpace b = false →
    hasDoubleSpace (a ++ '\n' :: b) = false := by
  intro a
  induction a with
  | nil => intro b _ hb; simp [hasDoubleSpace, hb]
  | cons c a ih =>
    intro b ha hb
    rw [List.cons_append]
    unfold hasDoubleSpace at ha ⊢
    rw [Bool.or_eq_false_iff] at ha
    rw [Bool.or_eq_false_iff]
    refine ⟨?_, ih b ha.2 hb⟩
    cases a with
    | nil => simp
    | cons a0 a1 =>
      have := ha.1
      simpa using this

theorem join_noDouble : ∀ (L : List (List Char)),
    (∀ m ∈ L, hasDoubleSpace m = false) → hasDoubleSpace (joinLinesData L) = false := by
  intro L
  induction L with
  | nil => intro _; rfl
  | cons l rest ih =>
    intro h
    cases rest with
    | nil => exact h l (List.mem_cons_self _ _)
    | cons l2 rest2 =>
      show hasDoubleSpace (l ++ '\n' :: joinLinesData (l2 :: rest2)) = false
      exact hasDoubleSpace_append_newline _ _ (h l (List.mem_cons_self _ _))
        (ih (fun m hm => h m (List.mem_cons_of_mem l hm)))

theorem join_split_roundtrip : ∀ (L : List (List Char)), L ≠ [] →
    (∀ l ∈ L, '\n' ∉ l) → splitLinesData (joinLinesData L) = L := by
  intro L
  induction L with
  | nil => intro h _; exact absurd rfl h
  | cons l rest ih =>
    intro _ hnl
    cases rest with
    | nil => exact splitLinesData_no_newline (hnl l (List.mem_cons_self _ _))
    | cons l2 rest2 =>
      show splitLinesData (l ++ '\n' :: joinLinesData (l2 :: rest2)) = _
      rw [splitLinesData_append _ (hnl l (List.mem_cons_self _ _))]
      rw [ih (by simp) (fun m hm => hnl m (List.mem_cons_of_mem l hm))]

theorem collapseCore_join : ∀ (L : List (List Char)),
    collapseCore false (joinLinesData L) = joinLinesData (L.map (collapseCore false)) := by
  intro L
  induction L with
  | nil => rfl
  | cons l rest ih =>
    cases rest with
    | nil => rfl
    | cons l2 rest2 =>
      show collapseCore false (l ++ '\n' :: joinLinesData (l2 :: rest2)) = _
      rw [collapseCore_append, ih]
      rfl

/-- The post-processing invariants of the cleaner, at the line-list
level: starting from non-empty, newline-free lines with non-whitespace
ends, collapsing spaces, joining and stripping yields a text with no
double spaces whose lines are all non-empty and strip-invariant. -/
theorem clean_list_shape (L : List (List Char))
    (hLne : ∀ l ∈ L, l ≠ []) (hLnl : ∀ l ∈ L, '\n' ∉ l)
    (hLhead : ∀ l ∈ L, ∀ c, l.head? = some c → pyIsSpace c = false)
    (hLlast : ∀ l ∈ L, ∀ c, l.getLast? = some c → pyIsSpace c = false) :
    hasDoubleSpace (stripData (collapseCore false (joinLinesData L))) = false ∧
    (stripData (collapseCore false (joinLinesData L)) ≠ [] →
      ∀ l ∈ splitLinesData (stripData (collapseCore false (joinLinesData L))),
        l ≠ [] ∧ stripData l = l) := by
  cases L with
  | nil => exact ⟨rfl, fun h => absurd rfl h⟩
  | cons l0 rest =>
    set L := l0 :: rest with hLdef
    have hMne : ∀ m ∈ L.map (collapseCore false), m ≠ [] := by
      intro m hm
      rcases List.mem_map.mp hm with ⟨l, hl, rfl⟩
      exact collapseCore_ne_nil (hLne l hl)
    have hMnl : ∀ m ∈ L.map (collapseCore false), '\n' ∉ m := by
      intro m hm
      rcases List.mem_map.mp hm with ⟨l, hl, rfl⟩
      intro hc
      exact hLnl l hl (collapseCore_mem l false '\n' hc)
    have hMhead : ∀ m ∈ L.map (collapseCore false), ∀ c, m.head? = some c →
        pyIsSpace c = false := by
      intro m hm c hc
      rcases List.mem_map.mp hm with ⟨l, hl, rfl⟩
      rw [collapseCore_head] at hc
      exact hLhead l hl c hc
    have hMlast : ∀ m ∈ L.map (collapseCore false), ∀ c, m.getLast? = some c →
        pyIsSpace c = false := by
      intro m hm c hc
      rcases List.mem_map.mp hm with ⟨l, hl, rfl⟩
      cases hg : l.getLast? with
      | none => exact absurd (List.getLast?_eq_none_iff.mp hg) (hLne l hl)
      | some c0 =>
        have hc0 : pyIsSpace c0 = false := hLlast l hl c0 hg
        have hc0ne : c0 ≠ ' ' := by
          intro he
          rw [he] at hc0
          simp [pyIsSpace] at hc0
        have := (collapseCore_getLast c0 hc0ne l false hg).1
        rw [this] at hc
        cases hc
        exact hc0
    have hMdouble : ∀ m ∈ L.map (collapseCore false), hasDoubleSpace m = false := by
      intro m hm
      rcases List.mem_map.mp hm with ⟨l, _, rfl⟩
      exact collapseCore_noDouble l false
    have hMne2 : L.map (collapseCore false) ≠ [] := by simp [hLdef]
    have hJstrip : stripData (joinLinesData (L.map (collapseCore false))) =
        joinLinesData (L.map (collapseCore false)) :=
      stripData_eq_self
        (fun c hc => join_head_prop _ _ hMne hMhead c hc)
        (fun c hc => join_getLast_prop _ _ hMne hMlast c hc)
    rw [collapseCore_join, hJstrip]
    constructor
    · exact join_noDouble _ hMdouble
    · intro _ l hl
      rw [join_split_roundtrip _ hMne2 hMnl] at hl
      refine ⟨hMne l hl, ?_⟩
      exact stripData_eq_self (hMhead l hl) (hMlast l hl)

/-! ## C7: OCR error containment and post-processing -/

/-- C7: `extract_text_from_image` is total over all external outcomes —
a raised Tesseract call (on either path) yields `""`; a failed
preprocessing falls back to recognizing the original image instead of
failing; and the post-processing always produces text with no double
spaces whose lines are all non-empty and fully trimmed. -/
theorem ocr_never_throws_and_cleans :
    (∀ tOrig : Option String, extract_text_from_image (some ()) none tOrig = "") ∧
    (∀ tProc : Option String, extract_text_from_image none tProc none = "") ∧
    (∀ (tProc : Option String) (t : String),
      extract_text_from_image none tProc (some t) = clean_extracted_text t) ∧
    (∀ (t : String) (tOrig : Option String),
      extract_text_from_image (some ()) (some t) tOrig = clean_extracted_text t) ∧
    (∀ t : String, hasDoubleSpace (clean_extracted_text t).data = false) ∧
    (∀ t : String, (clean_extracted_text t).data ≠ [] →
      ∀ l ∈ splitLinesData (clean_extracted_text t).data, l ≠ [] ∧ stripData l = l) := by
  have main : ∀ t : String, hasDoubleSpace (clean_extracted_text t).data = false ∧
      ((clean_extracted_text t).data ≠ [] →
        ∀ l ∈ splitLinesData (clean_extracted_text t).data, l ≠ [] ∧ stripData l = l) := by
    intro t
    by_cases ht : t = ""
    · subst ht
      exact ⟨rfl, fun h => absurd rfl h⟩
    · have hdata : (clean_extracted_text t).data =
          stripData (collapseCore false (joinLinesData
            (((splitLinesData t.data).map stripData).filter (· ≠ [])))) := by
        unfold clean_extracted_text
        rw [if_neg ht]
      have hLne : ∀ l ∈ ((splitLinesData t.data).map stripData).filter (· ≠ []), l ≠ [] := by
        intro l hl
        have h2 := (List.mem_filter.mp hl).2
        simpa using h2
      have hLnl : ∀ l ∈ ((splitLinesData t.data).map stripData).filter (· ≠ []),
          '\n' ∉ l := by
        intro l hl hc
        rcases List.mem_map.mp (List.mem_filter.mp hl).1 with ⟨l0, hl0, rfl⟩
        exact splitLinesData_mem_no_newline t.data l0 hl0 (stripData_mem hc)
      have hLhead : ∀ l ∈ ((splitLinesData t.data).map stripData).filter (· ≠ []),
          ∀ c, l.head? = some c → pyIsSpace c = false := by
        intro l hl c hc
        rcases List.mem_map.mp (List.mem_filter.mp hl).1 with ⟨l0, _, rfl⟩
        exact stripData_head_false hc
      have hLlast : ∀ l ∈ ((splitLinesData t.data).map stripData).filter (· ≠ []),
          ∀ c, l.getLast? = some c → pyIsSpace c = false := by
        intro l hl c hc
        rcases List.mem_map.mp (List.mem_filter.mp hl).1 with ⟨l0, _, rfl⟩
        exact stripData_getLast_false hc
      obtain ⟨h1, h2⟩ := clean_list_shape _ hLne hLnl hLhead hLlast
      rw [hdata]
      exact ⟨h1, h2⟩
  exact ⟨fun _ => rfl, fun _ => rfl, fun _ _ => rfl, fun _ _ => rfl,
    fun t => (main t).1, fun t => (main t).2⟩

/-- Concrete instance: the fallback path cleans `"  a   b \n\n  c  "`
into a double-space-free text whose line `"a b"` is non-empty and
trimmed. -/
theorem ocr_never_throws_and_cleans_witness :
    extract_text_from_image none none (some "  a   b \n\n  c  ") =
      clean_extracted_text "  a   b \n\n  c  " ∧
    hasDoubleSpace (clean_extracted_text "  a   b \n\n  c  ").data = false ∧
    ("a b".data ≠ [] ∧ stripData "a b".data = "a b".data) :=
  ⟨ocr_never_throws_and_cleans.2.2.1 none "  a   b \n\n  c  ",
   ocr_never_throws_and_cleans.2.2.2.2.1 "  a   b \n\n  c  ",
   ocr_never_throws_and_cleans.2.2.2.2.2 "  a   b \n\n  c  " (by decide) "a b".data (by decide)⟩

end OcrSystem
